import Mathlib

/-!
Shallow embedding of `src/renderer/menu/input-tracker.ts` (Kando's input
tracker).  Pointer coordinates are modelled as exact rationals; the
vector-math helpers from the (not included) `math` module are modelled from
the spec as exact real-valued Euclidean geometry.  The `EventEmitter`
side channel is modelled by returning the list of `pointer-motion`
payloads emitted by a call.  The only partial operation — reading
`touches[0]` of a touch event — is modelled with `Option`: `none` stands
for the `TypeError` thrown on an empty `touches` list.
-/

namespace Kando

/-- A 2D vector with exact integer coordinates (models `IVec2`; exact
arithmetic in place of JS floating-point numbers). -/
structure IVec2 where
  x : ℤ
  y : ℤ
deriving DecidableEq, Repr

/-- The modifier-key flags carried by mouse, touch and keyboard events. -/
structure Modifiers where
  ctrlKey : Bool
  metaKey : Bool
  shiftKey : Bool
  altKey : Bool
deriving DecidableEq, Repr

/-- The disjunction `event.ctrlKey || event.metaKey || event.shiftKey ||
event.altKey` used both in `onMotionEvent` and `onKeyUpEvent`. -/
def anyModifier (m : Modifiers) : Bool :=
  m.ctrlKey || m.metaKey || m.shiftKey || m.altKey

/-- A `MouseEvent | TouchEvent` as consumed by the tracker: a mouse event
carries client coordinates, modifier flags and the `buttons` bitmask; a
touch event carries its list of touch points and modifier flags. -/
inductive PointerEvent where
  | mouse (clientX clientY : ℤ) (mods : Modifiers) (buttons : ℕ)
  | touch (touches : List IVec2) (mods : Modifiers)
deriving DecidableEq, Repr

/-- Coordinate extraction: `{x: event.clientX, y: event.clientY}` for a
mouse event, `{x: event.touches[0].clientX, y: event.touches[0].clientY}`
for a touch event.  `none` models the `TypeError` raised by `touches[0]`
on an empty touch list. -/
def PointerEvent.eventPos : PointerEvent → Option IVec2
  | .mouse x y _ _ => some ⟨x, y⟩
  | .touch ts _ => ts.head?

/-- The modifier flags of a pointer event. -/
def PointerEvent.modifiers : PointerEvent → Modifiers
  | .mouse _ _ m _ => m
  | .touch _ m => m

/-- The test `event instanceof MouseEvent && event.buttons === 0` from the
marking-mode exit branch of `onMotionEvent`. -/
def PointerEvent.isMouseNoButtons : PointerEvent → Bool
  | .mouse _ _ _ b => b == 0
  | .touch _ _ => false

/-- A well-formed event carries at least one touch point (trivially true
for mouse events).  This is the caller contract stated by the spec. -/
def PointerEvent.wellFormed : PointerEvent → Bool
  | .mouse _ _ _ _ => true
  | .touch ts _ => !ts.isEmpty

/-- The logical state of the input device (enum `InputState`). -/
inductive InputState where
  | eReleased
  | eClicked
  | eMarkingMode
  | eTurboMode
deriving DecidableEq, Repr

/-- Modelled from the spec: `math.subtract`, componentwise vector
subtraction (the `math` module itself is not part of the sources). -/
def subtract (a b : IVec2) : IVec2 := ⟨a.x - b.x, a.y - b.y⟩

/-- The squared Euclidean length of a vector, kept in ℤ so that threshold
comparisons stay decidable. -/
def sqLength (v : IVec2) : ℤ := v.x * v.x + v.y * v.y

/-- Modelled from the spec: `math.getLength`, the Euclidean length
`|v| = sqrt (v.x² + v.y²)` (the `math` module itself is not part of the
sources). -/
noncomputable def getLength (v : IVec2) : ℝ := Real.sqrt ((sqLength v : ℤ) : ℝ)

/-- Modelled from the spec: `math.getDistance`, the Euclidean distance
between two points (the `math` module itself is not part of the
sources). -/
noncomputable def getDistance (a b : IVec2) : ℝ := getLength (subtract a b)

theorem sqLength_nonneg (v : IVec2) : 0 ≤ sqLength v := by
  have hx : 0 ≤ v.x * v.x := mul_self_nonneg _
  have hy : 0 ≤ v.y * v.y := mul_self_nonneg _
  simpa [sqLength] using add_nonneg hx hy

/-- `getDistance a b < c` is equivalent to a rational comparison of squared
quantities; this keeps the branch conditions of the tracker decidable. -/
theorem getDistance_lt_iff (a b : IVec2) (c : ℤ) :
    getDistance a b < (c : ℝ) ↔ 0 < c ∧ sqLength (subtract a b) < c * c := by
  unfold getDistance getLength
  rcases le_or_lt c 0 with hc | hc
  · constructor
    · intro h
      exact absurd (lt_of_le_of_lt (Real.sqrt_nonneg _) h)
        (not_lt.mpr (by exact_mod_cast hc))
    · rintro ⟨h0, -⟩
      exact absurd hc (not_le.mpr h0)
  · rw [Real.sqrt_lt' (by exact_mod_cast hc), sq]
    constructor
    · intro h
      refine ⟨hc, ?_⟩
      exact_mod_cast h
    · rintro ⟨-, h⟩
      exact_mod_cast h

/-- `(c : ℝ) < getDistance a b` is equivalent to a rational comparison of
squared quantities. -/
theorem lt_getDistance_iff (a b : IVec2) (c : ℤ) :
    (c : ℝ) < getDistance a b ↔ c < 0 ∨ c * c < sqLength (subtract a b) := by
  unfold getDistance getLength
  rcases lt_or_le c 0 with hc | hc
  · constructor
    · intro _
      exact Or.inl hc
    · intro _
      exact lt_of_lt_of_le (by exact_mod_cast hc) (Real.sqrt_nonneg _)
  · rw [Real.lt_sqrt (by exact_mod_cast hc), sq]
    constructor
    · intro h
      refine Or.inr ?_
      exact_mod_cast h
    · rintro (h | h)
      · exact absurd hc (not_le.mpr h)
      · exact_mod_cast h

instance decGetDistanceLt (a b : IVec2) (c : ℤ) :
    Decidable (getDistance a b < (c : ℝ)) :=
  decidable_of_iff _ (getDistance_lt_iff a b c).symm

instance decLtGetDistance (a b : IVec2) (c : ℤ) :
    Decidable ((c : ℝ) < getDistance a b) :=
  decidable_of_iff _ (lt_getDistance_iff a b c).symm

/-- Modelled from the spec: `math.getAngle` (the `math` module itself is
not part of the sources).  The angle of a vector in degrees, in `[0, 360)`,
with 0° = up, 90° = right, 180° = down, 270° = left: the mathematical
argument of `(x, y)` is rotated by 90° (screen `y` grows downwards) and
reduced modulo 360. -/
noncomputable def getAngle (v : IVec2) : ℝ :=
  let deg := Complex.arg ⟨(v.x : ℝ), (v.y : ℝ)⟩ * 180 / Real.pi + 90
  deg - 360 * ⌊deg / 360⌋

/-- Modelled from the spec: conversion from polar form `(distance, angle)`
back to Cartesian coordinates under the convention 0° = up, increasing
clockwise, so `x = d·sin θ` and `y = −d·cos θ` with `θ` in radians. -/
noncomputable def polarToCartesian (d a : ℝ) : ℝ × ℝ :=
  (d * Real.sin (a * Real.pi / 180), -(d * Real.cos (a * Real.pi / 180)))

/-- The mutable record of `class InputTracker`.  `clickPosition` is an
`Option` because `onPointerUpEvent` assigns `null` to it; its initial
value is the (non-null) origin, exactly as in the source. -/
structure InputTracker where
  _state : InputState
  _absolutePosition : IVec2
  _relativePosition : IVec2
  _angle : ℝ
  _distance : ℝ
  _deferredTurboMode : Bool
  clickPosition : Option IVec2
  keydownPosition : IVec2
  anyKeyPressed : Bool
  ignoreMotionEvents : ℕ
  dragThreshold : ℤ
  enableMarkingMode : Bool
  enableTurboMode : Bool

/-- The field initializers of `class InputTracker`. -/
noncomputable def initialTracker : InputTracker where
  _state := .eReleased
  _absolutePosition := ⟨0, 0⟩
  _relativePosition := ⟨0, 0⟩
  _angle := 0
  _distance := 0
  _deferredTurboMode := false
  clickPosition := some ⟨0, 0⟩
  keydownPosition := ⟨0, 0⟩
  anyKeyPressed := false
  ignoreMotionEvents := 0
  dragThreshold := 15
  enableMarkingMode := true
  enableTurboMode := true

/-- `InputTracker.update`: store the absolute position and recompute the
relative position, distance and angle with respect to the active item
position (`activeItemPosition = activeItemPosition || position`). -/
noncomputable def InputTracker.update (t : InputTracker) (position : IVec2)
    (activeItemPosition : Option IVec2) : InputTracker :=
  let aip := activeItemPosition.getD position
  let rel := subtract position aip
  { t with
    _absolutePosition := position
    _relativePosition := rel
    _distance := getLength rel
    _angle := getAngle rel }

/-- `InputTracker.onMotionEvent`.  Returns the updated tracker together
with the list of `pointer-motion` payloads emitted by the call, or `none`
when the source would throw reading `touches[0]` of an empty touch
event. -/
noncomputable def InputTracker.onMotionEvent (t : InputTracker)
    (event : PointerEvent) (activeItemPosition : IVec2) :
    Option (InputTracker × List IVec2) :=
  if t.ignoreMotionEvents > 0 then
    some ({ t with ignoreMotionEvents := t.ignoreMotionEvents - 1 }, [])
  else
    match event.eventPos with
    | none => none
    | some pos =>
      let t1 := t.update pos (some activeItemPosition)
      let inClickZone : Bool :=
        match t1.clickPosition with
        | none => false
        | some cp =>
          decide (getDistance t1._absolutePosition cp < (t1.dragThreshold : ℝ))
      let t2 :=
        if t1._state = InputState.eClicked ∧ inClickZone = false then
          { t1 with
            _state :=
              if t1.enableMarkingMode then InputState.eMarkingMode
              else InputState.eReleased }
        else t1
      let canEnterTurboMode : Bool :=
        t2.enableTurboMode && !t2._deferredTurboMode &&
          !(t2._state == InputState.eTurboMode)
      let shouldEnterTurboMode : Bool :=
        if canEnterTurboMode then
          (t2.anyKeyPressed &&
            decide ((t2.dragThreshold : ℝ) <
              getDistance t2._absolutePosition t2.keydownPosition)) ||
            anyModifier event.modifiers
        else false
      let t3 :=
        if shouldEnterTurboMode then { t2 with _state := InputState.eTurboMode }
        else if event.isMouseNoButtons &&
            (t2._state == InputState.eMarkingMode) then
          { t2 with _state := InputState.eReleased }
        else t2
      some (t3, [t3._absolutePosition])

/-- `InputTracker.onPointerDownEvent`: record `clickPosition` from the
event, set the state to `eClicked`, then run `onMotionEvent` on the same
event. -/
noncomputable def InputTracker.onPointerDownEvent (t : InputTracker)
    (event : PointerEvent) (activeItemPosition : IVec2) :
    Option (InputTracker × List IVec2) :=
  match event.eventPos with
  | none => none
  | some cp =>
    let t1 := { t with clickPosition := some cp, _state := InputState.eClicked }
    t1.onMotionEvent event activeItemPosition

/-- `InputTracker.onPointerUpEvent`: state becomes `eReleased` and
`clickPosition` becomes `null`. -/
def InputTracker.onPointerUpEvent (t : InputTracker) : InputTracker :=
  { t with _state := InputState.eReleased, clickPosition := none }

/-- `InputTracker.onKeyDownEvent`: unless turbo mode is deferred, record
that a key is pressed and capture the current absolute position. -/
def InputTracker.onKeyDownEvent (t : InputTracker) : InputTracker :=
  if t._deferredTurboMode then t
  else { t with anyKeyPressed := true, keydownPosition := t._absolutePosition }

/-- `InputTracker.onKeyUpEvent`: if no modifier key remains pressed, clear
`anyKeyPressed` and `_deferredTurboMode` and leave turbo mode (towards
`eMarkingMode` when `clickPosition` is truthy, `eReleased` otherwise). -/
def InputTracker.onKeyUpEvent (t : InputTracker) (event : Modifiers) :
    InputTracker :=
  if anyModifier event then t
  else
    let t1 := { t with anyKeyPressed := false, _deferredTurboMode := false }
    if t1._state = InputState.eTurboMode then
      { t1 with
        _state :=
          if t1.clickPosition.isSome then InputState.eMarkingMode
          else InputState.eReleased }
    else t1

/-- `InputTracker.ignoreNextMotionEvents`: the next two motion events will
be discarded. -/
def InputTracker.ignoreNextMotionEvents (t : InputTracker) : InputTracker :=
  { t with ignoreMotionEvents := 2 }

/-- One call to a public operation of the tracker, with its arguments. -/
inductive Op where
  | pointerDown (event : PointerEvent) (activeItemPosition : IVec2)
  | pointerUp
  | motion (event : PointerEvent) (activeItemPosition : IVec2)
  | keyDown
  | keyUp (mods : Modifiers)
  | ignoreReset
deriving Repr

/-- Execute one operation on the tracker (emissions discarded); `none`
models a thrown `TypeError`. -/
noncomputable def stepOp (t : InputTracker) : Op → Option InputTracker
  | .pointerDown e aip => (t.onPointerDownEvent e aip).map Prod.fst
  | .pointerUp => some t.onPointerUpEvent
  | .motion e aip => (t.onMotionEvent e aip).map Prod.fst
  | .keyDown => some t.onKeyDownEvent
  | .keyUp mods => some (t.onKeyUpEvent mods)
  | .ignoreReset => some t.ignoreNextMotionEvents

/-- Execute a sequence of operations in order. -/
noncomputable def runOps (t : InputTracker) : List Op → Option InputTracker
  | [] => some t
  | op :: ops => (stepOp t op).bind (fun t1 => runOps t1 ops)

/-- A press is currently active without an intervening release: the last
press/release operation in the trace is a press. -/
def pressActive (ops : List Op) : Bool :=
  ops.foldl
    (fun acc op =>
      match op with
      | .pointerDown _ _ => true
      | .pointerUp => false
      | _ => acc)
    false

/-- How one operation changes the nullness of `clickPosition`: a press
makes it non-null, a release makes it null, and no other operation
touches it. -/
def clickNullStep (b : Bool) : Op → Bool
  | .pointerDown _ _ => false
  | .pointerUp => true
  | _ => b

/-- Whether `clickPosition` is `null` after a trace, starting from a state
where its nullness is `init`. -/
def clickNull (init : Bool) (ops : List Op) : Bool :=
  ops.foldl clickNullStep init

end Kando

namespace Kando

/-- An all-false modifier record. -/
def noMods : Modifiers := ⟨false, false, false, false⟩

/-- A closed form for the tracker produced by a non-ignored, well-formed
motion update: the same data flow as `onMotionEvent`, with the record
updates flattened into one. -/
noncomputable def motionResult (t : InputTracker) (e : PointerEvent)
    (pos aip : IVec2) : InputTracker :=
  let rel := subtract pos aip
  let inClickZone : Bool :=
    match t.clickPosition with
    | none => false
    | some cp => decide (getDistance pos cp < (t.dragThreshold : ℝ))
  let s1 : InputState :=
    if t._state = InputState.eClicked ∧ inClickZone = false then
      (if t.enableMarkingMode then InputState.eMarkingMode
       else InputState.eReleased)
    else t._state
  let shouldTurbo : Bool :=
    if t.enableTurboMode && !t._deferredTurboMode &&
        !(s1 == InputState.eTurboMode) then
      (t.anyKeyPressed &&
        decide ((t.dragThreshold : ℝ) < getDistance pos t.keydownPosition)) ||
        anyModifier e.modifiers
    else false
  let s2 : InputState :=
    if shouldTurbo then InputState.eTurboMode
    else if e.isMouseNoButtons && (s1 == InputState.eMarkingMode) then
      InputState.eReleased
    else s1
  { t with
    _state := s2
    _absolutePosition := pos
    _relativePosition := rel
    _distance := getLength rel
    _angle := getAngle rel }

theorem onMotionEvent_eq_motionResult (t : InputTracker) (e : PointerEvent)
    (aip pos : IVec2) (hig : t.ignoreMotionEvents = 0)
    (hpos : e.eventPos = some pos) :
    t.onMotionEvent e aip = some (motionResult t e pos aip, [pos]) := by
  unfold InputTracker.onMotionEvent motionResult InputTracker.update
  rw [hig, hpos]
  simp only [gt_iff_lt, lt_irrefl, if_false, Option.getD_some]
  split_ifs <;> simp_all <;>
    (try split_ifs <;> simp_all)

/-- `onPointerDownEvent` in the non-ignored, well-formed case: record the
click position, enter `eClicked`, then behave as a motion update. -/
theorem onPointerDownEvent_eq_motionResult (t : InputTracker)
    (e : PointerEvent) (aip pos : IVec2) (hig : t.ignoreMotionEvents = 0)
    (hpos : e.eventPos = some pos) :
    t.onPointerDownEvent e aip =
      some (motionResult
        { t with clickPosition := some pos, _state := InputState.eClicked }
        e pos aip, [pos]) := by
  unfold InputTracker.onPointerDownEvent
  rw [hpos]
  exact onMotionEvent_eq_motionResult _ e aip pos hig hpos

theorem motionResult_clickPosition (t : InputTracker) (e : PointerEvent)
    (pos aip : IVec2) :
    (motionResult t e pos aip).clickPosition = t.clickPosition := rfl

theorem motionResult_keydownPosition (t : InputTracker) (e : PointerEvent)
    (pos aip : IVec2) :
    (motionResult t e pos aip).keydownPosition = t.keydownPosition := rfl

theorem motionResult_anyKeyPressed (t : InputTracker) (e : PointerEvent)
    (pos aip : IVec2) :
    (motionResult t e pos aip).anyKeyPressed = t.anyKeyPressed := rfl

theorem motionResult_flags (t : InputTracker) (e : PointerEvent)
    (pos aip : IVec2) :
    (motionResult t e pos aip)._deferredTurboMode = t._deferredTurboMode ∧
    (motionResult t e pos aip).ignoreMotionEvents = t.ignoreMotionEvents ∧
    (motionResult t e pos aip).dragThreshold = t.dragThreshold ∧
    (motionResult t e pos aip).enableMarkingMode = t.enableMarkingMode ∧
    (motionResult t e pos aip).enableTurboMode = t.enableTurboMode :=
  ⟨rfl, rfl, rfl, rfl, rfl⟩

theorem motionResult_absolutePosition (t : InputTracker) (e : PointerEvent)
    (pos aip : IVec2) :
    (motionResult t e pos aip)._absolutePosition = pos := rfl

/-- The state reached by a non-ignored, well-formed motion update, as a
standalone expression. -/
theorem motionResult_state (t : InputTracker) (e : PointerEvent)
    (pos aip : IVec2) :
    (motionResult t e pos aip)._state =
      (let inClickZone : Bool :=
        match t.clickPosition with
        | none => false
        | some cp => decide (getDistance pos cp < (t.dragThreshold : ℝ))
      let s1 : InputState :=
        if t._state = InputState.eClicked ∧ inClickZone = false then
          (if t.enableMarkingMode then InputState.eMarkingMode
           else InputState.eReleased)
        else t._state
      let shouldTurbo : Bool :=
        if t.enableTurboMode && !t._deferredTurboMode &&
            !(s1 == InputState.eTurboMode) then
          (t.anyKeyPressed &&
            decide ((t.dragThreshold : ℝ) <
              getDistance pos t.keydownPosition)) ||
            anyModifier e.modifiers
        else false
      if shouldTurbo then InputState.eTurboMode
      else if e.isMouseNoButtons && (s1 == InputState.eMarkingMode) then
        InputState.eReleased
      else s1) := rfl

/-- C2: a non-ignored motion update ends in `eTurboMode` exactly when the
tracker already was in `eTurboMode`, or turbo mode is enabled, not
deferred, and either a key is held with the new absolute position farther
than `dragThreshold` from `keydownPosition`, or the event carries any
modifier flag; in particular the trigger fires from `eReleased`,
`eClicked` and `eMarkingMode` alike. -/
theorem motion_enters_turbo_iff (t : InputTracker) (e : PointerEvent)
    (aip pos : IVec2) (t' : InputTracker) (ems : List IVec2)
    (hig : t.ignoreMotionEvents = 0) (hpos : e.eventPos = some pos)
    (h : t.onMotionEvent e aip = some (t', ems)) :
    t'._state = InputState.eTurboMode ↔
      t._state = InputState.eTurboMode ∨
        (t.enableTurboMode = true ∧ t._deferredTurboMode = false ∧
          ((t.anyKeyPressed = true ∧
              (t.dragThreshold : ℝ) < getDistance pos t.keydownPosition) ∨
            anyModifier e.modifiers = true)) := by
  rw [onMotionEvent_eq_motionResult t e aip pos hig hpos] at h
  simp only [Option.some.injEq, Prod.mk.injEq] at h
  obtain ⟨h1, -⟩ := h
  subst h1
  rw [motionResult_state]
  by_cases hturbo : t._state = InputState.eTurboMode
  · simp [hturbo]
  · simp only [hturbo, false_or]
    split_ifs <;> simp_all

/-- Witness for C2 at a concrete input: from the initial tracker, a mouse
motion to (5, 5) with the ctrl flag set enters turbo mode. -/
theorem motion_enters_turbo_iff_witness :
    (motionResult initialTracker
        (PointerEvent.mouse 5 5 ⟨true, false, false, false⟩ 0)
        ⟨5, 5⟩ ⟨0, 0⟩)._state = InputState.eTurboMode := by
  have h := motion_enters_turbo_iff initialTracker
    (PointerEvent.mouse 5 5 ⟨true, false, false, false⟩ 0) ⟨0, 0⟩ ⟨5, 5⟩
    (motionResult initialTracker
      (PointerEvent.mouse 5 5 ⟨true, false, false, false⟩ 0) ⟨5, 5⟩ ⟨0, 0⟩)
    [⟨5, 5⟩] rfl rfl
    (onMotionEvent_eq_motionResult initialTracker
      (PointerEvent.mouse 5 5 ⟨true, false, false, false⟩ 0) ⟨0, 0⟩ ⟨5, 5⟩
      rfl rfl)
  exact h.mpr (Or.inr ⟨rfl, rfl, Or.inr rfl⟩)

/-- C10: a non-ignored touch motion received in `eMarkingMode` that does
not trigger turbo mode leaves the state in `eMarkingMode`; the
exit-to-`eReleased` branch is evaluated only for mouse events. -/
theorem touch_motion_keeps_marking (t : InputTracker) (ts : List IVec2)
    (m : Modifiers) (aip pos : IVec2) (t' : InputTracker) (ems : List IVec2)
    (hig : t.ignoreMotionEvents = 0)
    (hpos : (PointerEvent.touch ts m).eventPos = some pos)
    (hst : t._state = InputState.eMarkingMode)
    (htrig : ¬(t.enableTurboMode = true ∧ t._deferredTurboMode = false ∧
      ((t.anyKeyPressed = true ∧
          (t.dragThreshold : ℝ) < getDistance pos t.keydownPosition) ∨
        anyModifier m = true)))
    (h : t.onMotionEvent (PointerEvent.touch ts m) aip = some (t', ems)) :
    t'._state = InputState.eMarkingMode := by
  rw [onMotionEvent_eq_motionResult t _ aip pos hig hpos] at h
  simp only [Option.some.injEq, Prod.mk.injEq] at h
  obtain ⟨h1, -⟩ := h
  subst h1
  rw [motionResult_state]
  rcases Decidable.em
      (t.enableTurboMode = true ∧ t._deferredTurboMode = false) with hED | hED
  · have hcf : ((t.anyKeyPressed &&
        decide ((t.dragThreshold : ℝ) <
          getDistance pos t.keydownPosition)) || anyModifier m) = false := by
      rcases hED with ⟨hE, hD⟩
      by_contra hb
      rw [Bool.not_eq_false, Bool.or_eq_true, Bool.and_eq_true,
        decide_eq_true_eq] at hb
      refine htrig ⟨hE, hD, ?_⟩
      tauto
    simp [hst, hED.1, hED.2, hcf, PointerEvent.isMouseNoButtons,
      PointerEvent.modifiers]
  · have hce : (t.enableTurboMode && !t._deferredTurboMode) = false := by
      cases hE : t.enableTurboMode <;> cases hD : t._deferredTurboMode <;>
        simp_all
    simp [hst, hce, PointerEvent.isMouseNoButtons]

/-- Witness for C10 at a concrete input: in marking mode with turbo mode
disabled, a touch motion to (100, 100) keeps the state in marking mode. -/
theorem touch_motion_keeps_marking_witness :
    (motionResult
        { initialTracker with
            _state := InputState.eMarkingMode, enableTurboMode := false }
        (PointerEvent.touch [⟨100, 100⟩] noMods)
        ⟨100, 100⟩ ⟨0, 0⟩)._state = InputState.eMarkingMode := by
  exact touch_motion_keeps_marking
    { initialTracker with
        _state := InputState.eMarkingMode, enableTurboMode := false }
    [⟨100, 100⟩] noMods ⟨0, 0⟩ ⟨100, 100⟩ _ [⟨100, 100⟩] rfl rfl rfl
    (by simp)
    (onMotionEvent_eq_motionResult _ _ ⟨0, 0⟩ ⟨100, 100⟩ rfl rfl)

/-- C1 (amended): a key-up with no modifier flags left, received in
`eTurboMode`, moves the state to `eMarkingMode` when `clickPosition` is
non-null and to `eReleased` when it is null. -/
theorem keyUp_leaves_turbo (t : InputTracker) (mods : Modifiers)
    (hm : anyModifier mods = false) (hst : t._state = InputState.eTurboMode) :
    (t.onKeyUpEvent mods)._state =
      if t.clickPosition.isSome then InputState.eMarkingMode
      else InputState.eReleased := by
  unfold InputTracker.onKeyUpEvent
  simp [hm, hst]

/-- Witness for C1 at concrete inputs: with an active press recorded at
(3, 4), leaving turbo mode yields `eMarkingMode`; with `clickPosition`
null it yields `eReleased`. -/
theorem keyUp_leaves_turbo_witness :
    ({ initialTracker with
        _state := InputState.eTurboMode,
        clickPosition := some ⟨3, 4⟩ }.onKeyUpEvent noMods)._state =
      InputState.eMarkingMode ∧
    ({ initialTracker with
        _state := InputState.eTurboMode,
        clickPosition := none }.onKeyUpEvent noMods)._state =
      InputState.eReleased := by
  constructor
  · rw [keyUp_leaves_turbo _ noMods rfl rfl]
    rfl
  · rw [keyUp_leaves_turbo _ noMods rfl rfl]
    rfl

/-- Counterexample to C1 as stated: a tracker that enters turbo mode
without any press ever having occurred still holds the initial, non-null
`clickPosition` (0, 0), so releasing the modifiers yields `eMarkingMode`,
not `eReleased`. -/
theorem keyUp_neverPressed_gives_marking :
    ((runOps initialTracker
        [Op.motion (PointerEvent.mouse 5 5 ⟨true, false, false, false⟩ 0)
          ⟨0, 0⟩]).map
      (fun t => t._state)) = some InputState.eTurboMode ∧
    pressActive
      [Op.motion (PointerEvent.mouse 5 5 ⟨true, false, false, false⟩ 0)
        ⟨0, 0⟩, Op.keyUp noMods] = false ∧
    ((runOps initialTracker
        [Op.motion (PointerEvent.mouse 5 5 ⟨true, false, false, false⟩ 0)
          ⟨0, 0⟩, Op.keyUp noMods]).map
      (fun t => t._state)) = some InputState.eMarkingMode ∧
    InputState.eMarkingMode ≠ InputState.eReleased := by
  refine ⟨by decide, by decide, by decide, by decide⟩

theorem onMotionEvent_isSome (t : InputTracker) (e : PointerEvent)
    (aip pos : IVec2) (hpos : e.eventPos = some pos) :
    (t.onMotionEvent e aip).isSome = true := by
  unfold InputTracker.onMotionEvent
  split
  · rfl
  · rw [hpos]
    rfl

/-- C9: under the caller contract that touch events carry at least one
touch point, `onMotionEvent` and `onPointerDownEvent` never fail (all
remaining operations are total by construction). -/
theorem touch_events_safe (t : InputTracker) (e : PointerEvent)
    (aip : IVec2) (hwf : e.wellFormed = true) :
    (t.onMotionEvent e aip).isSome = true ∧
    (t.onPointerDownEvent e aip).isSome = true := by
  have hpos : ∃ pos, e.eventPos = some pos := by
    cases e with
    | mouse x y m b => exact ⟨⟨x, y⟩, rfl⟩
    | touch ts m =>
      cases ts with
      | nil => simp [PointerEvent.wellFormed] at hwf
      | cons a l => exact ⟨a, rfl⟩
  obtain ⟨pos, hpos⟩ := hpos
  constructor
  · exact onMotionEvent_isSome t e aip pos hpos
  · unfold InputTracker.onPointerDownEvent
    rw [hpos]
    exact onMotionEvent_isSome _ e aip pos hpos

/-- Witness for C9 at a concrete input: a one-point touch event is
processed without failure by both operations. -/
theorem touch_events_safe_witness :
    ((initialTracker.onMotionEvent (PointerEvent.touch [⟨7, 8⟩] noMods)
        ⟨0, 0⟩).isSome = true) ∧
    ((initialTracker.onPointerDownEvent (PointerEvent.touch [⟨7, 8⟩] noMods)
        ⟨0, 0⟩).isSome = true) :=
  touch_events_safe initialTracker (PointerEvent.touch [⟨7, 8⟩] noMods)
    ⟨0, 0⟩ rfl

theorem getDistance_self_lt {c : ℤ} (hc : 0 < c) (a : IVec2) :
    getDistance a a < (c : ℝ) :=
  (getDistance_lt_iff a a c).mpr
    ⟨hc, by simpa [subtract, sqLength] using mul_pos hc hc⟩

/-- When the turbo-entry conditions do not hold, a motion update reduces
to the click-promotion and marking-exit logic alone. -/
theorem motionResult_state_noTurbo (t : InputTracker) (e : PointerEvent)
    (pos aip : IVec2)
    (htrig : ¬(t.enableTurboMode = true ∧ t._deferredTurboMode = false ∧
      ((t.anyKeyPressed = true ∧
          (t.dragThreshold : ℝ) < getDistance pos t.keydownPosition) ∨
        anyModifier e.modifiers = true))) :
    (motionResult t e pos aip)._state =
      (let inClickZone : Bool :=
        match t.clickPosition with
        | none => false
        | some cp => decide (getDistance pos cp < (t.dragThreshold : ℝ))
      let s1 : InputState :=
        if t._state = InputState.eClicked ∧ inClickZone = false then
          (if t.enableMarkingMode then InputState.eMarkingMode
           else InputState.eReleased)
        else t._state
      if e.isMouseNoButtons && (s1 == InputState.eMarkingMode) then
        InputState.eReleased
      else s1) := by
  rw [motionResult_state]
  rcases Decidable.em
      (t.enableTurboMode = true ∧ t._deferredTurboMode = false) with
    ⟨hE, hD⟩ | hED
  · have hcf : ((t.anyKeyPressed &&
        decide ((t.dragThreshold : ℝ) <
          getDistance pos t.keydownPosition)) ||
          anyModifier e.modifiers) = false := by
      by_contra hb
      rw [Bool.not_eq_false, Bool.or_eq_true, Bool.and_eq_true,
        decide_eq_true_eq] at hb
      refine htrig ⟨hE, hD, ?_⟩
      tauto
    simp [hE, hD, hcf]
  · have hce : (t.enableTurboMode && !t._deferredTurboMode) = false := by
      cases hE : t.enableTurboMode <;> cases hD : t._deferredTurboMode <;>
        simp_all
    simp [hce]

/-- C5 (amended): a press at `p` followed by a motion to `q` farther than
`dragThreshold` from `p`, with no turbo trigger on either event, ends in
`eMarkingMode` when marking mode is enabled and the motion is not a mouse
event reporting no held buttons, and in `eReleased` otherwise. -/
theorem press_then_far_motion (t : InputTracker) (eDown eMove : PointerEvent)
    (aipD aipM p q : IVec2) (tD : InputTracker) (emsD : List IVec2)
    (tM : InputTracker) (emsM : List IVec2)
    (hig : t.ignoreMotionEvents = 0)
    (hth : 0 < t.dragThreshold)
    (hDpos : eDown.eventPos = some p)
    (hDtrig : ¬(t.enableTurboMode = true ∧ t._deferredTurboMode = false ∧
      ((t.anyKeyPressed = true ∧
          (t.dragThreshold : ℝ) < getDistance p t.keydownPosition) ∨
        anyModifier eDown.modifiers = true)))
    (hdown : t.onPointerDownEvent eDown aipD = some (tD, emsD))
    (hMpos : eMove.eventPos = some q)
    (hfar : (t.dragThreshold : ℝ) < getDistance q p)
    (hMtrig : ¬(t.enableTurboMode = true ∧ t._deferredTurboMode = false ∧
      ((t.anyKeyPressed = true ∧
          (t.dragThreshold : ℝ) < getDistance q t.keydownPosition) ∨
        anyModifier eMove.modifiers = true)))
    (hmove : tD.onMotionEvent eMove aipM = some (tM, emsM)) :
    tM._state =
      if t.enableMarkingMode && !eMove.isMouseNoButtons then
        InputState.eMarkingMode
      else InputState.eReleased := by
  rw [onPointerDownEvent_eq_motionResult t eDown aipD p hig hDpos] at hdown
  simp only [Option.some.injEq, Prod.mk.injEq] at hdown
  obtain ⟨h1, -⟩ := hdown
  have hdd : getDistance p p < (t.dragThreshold : ℝ) :=
    getDistance_self_lt hth p
  have hDstate : tD._state = InputState.eClicked := by
    rw [← h1, motionResult_state_noTurbo
      { t with clickPosition := some p, _state := InputState.eClicked }
      eDown p aipD (by exact hDtrig)]
    simp [hdd]
  have hDclick : tD.clickPosition = some p := by
    rw [← h1]
    rfl
  have hDig : tD.ignoreMotionEvents = 0 := by
    rw [← h1]
    exact hig
  have hDth : tD.dragThreshold = t.dragThreshold := by
    rw [← h1]
    rfl
  have hDmark : tD.enableMarkingMode = t.enableMarkingMode := by
    rw [← h1]
    rfl
  have hMtrigD : ¬(tD.enableTurboMode = true ∧
      tD._deferredTurboMode = false ∧
      ((tD.anyKeyPressed = true ∧
          (tD.dragThreshold : ℝ) < getDistance q tD.keydownPosition) ∨
        anyModifier eMove.modifiers = true)) := by
    rw [← h1]
    exact hMtrig
  rw [onMotionEvent_eq_motionResult tD eMove aipM q hDig hMpos] at hmove
  simp only [Option.some.injEq, Prod.mk.injEq] at hmove
  obtain ⟨h2, -⟩ := hmove
  subst h2
  have hqp : ¬(getDistance q p < (t.dragThreshold : ℝ)) := lt_asymm hfar
  rw [motionResult_state_noTurbo tD eMove q aipM hMtrigD]
  rw [hDclick, hDth]
  simp only [hDstate, hqp, decide_eq_true_eq, hDmark]
  cases hMk : t.enableMarkingMode <;>
    cases hBtn : eMove.isMouseNoButtons <;>
      simp_all

/-- Witness for C5 at concrete inputs: press at (0, 0), motion to (20, 0)
with buttons still held, threshold 15 — the tracker ends in marking
mode. -/
theorem press_then_far_motion_witness :
    (motionResult
      (motionResult
        { initialTracker with
            clickPosition := some ⟨0, 0⟩, _state := InputState.eClicked }
        (PointerEvent.mouse 0 0 noMods 1) ⟨0, 0⟩ ⟨0, 0⟩)
      (PointerEvent.mouse 20 0 noMods 1) ⟨20, 0⟩ ⟨0, 0⟩)._state =
    InputState.eMarkingMode := by
  have h := press_then_far_motion initialTracker
    (PointerEvent.mouse 0 0 noMods 1) (PointerEvent.mouse 20 0 noMods 1)
    ⟨0, 0⟩ ⟨0, 0⟩ ⟨0, 0⟩ ⟨20, 0⟩
    (motionResult
      { initialTracker with
          clickPosition := some ⟨0, 0⟩, _state := InputState.eClicked }
      (PointerEvent.mouse 0 0 noMods 1) ⟨0, 0⟩ ⟨0, 0⟩) [⟨0, 0⟩]
    (motionResult
      (motionResult
        { initialTracker with
            clickPosition := some ⟨0, 0⟩, _state := InputState.eClicked }
        (PointerEvent.mouse 0 0 noMods 1) ⟨0, 0⟩ ⟨0, 0⟩)
      (PointerEvent.mouse 20 0 noMods 1) ⟨20, 0⟩ ⟨0, 0⟩) [⟨20, 0⟩]
    rfl (by decide) rfl
    (by simp [initialTracker, PointerEvent.modifiers, anyModifier, noMods])
    (onPointerDownEvent_eq_motionResult initialTracker
      (PointerEvent.mouse 0 0 noMods 1) ⟨0, 0⟩ ⟨0, 0⟩ rfl rfl)
    rfl
    (by rw [lt_getDistance_iff]; decide)
    (by simp [initialTracker, PointerEvent.modifiers, anyModifier, noMods])
    (onMotionEvent_eq_motionResult _
      (PointerEvent.mouse 20 0 noMods 1) ⟨0, 0⟩ ⟨20, 0⟩ rfl rfl)
  exact h

/-- Counterexample to C5 as stated: with marking mode enabled, a press at
(0, 0) followed by a motion to (20, 0) that reports no held mouse buttons
(distance 20 > threshold 15, no turbo trigger) ends in `eReleased`, not
`eMarkingMode`. -/
theorem press_far_motion_buttonless_released :
    initialTracker.enableMarkingMode = true ∧
    (initialTracker.dragThreshold : ℝ) < getDistance ⟨20, 0⟩ ⟨0, 0⟩ ∧
    ((runOps initialTracker
        [Op.pointerDown (PointerEvent.mouse 0 0 noMods 1) ⟨0, 0⟩,
         Op.motion (PointerEvent.mouse 20 0 noMods 0) ⟨0, 0⟩]).map
      (fun t => t._state)) = some InputState.eReleased ∧
    InputState.eReleased ≠ InputState.eMarkingMode := by
  refine ⟨rfl, ?_, by decide, by decide⟩
  rw [lt_getDistance_iff]
  decide

theorem onMotionEvent_preserves (t : InputTracker) (e : PointerEvent)
    (aip : IVec2) (r : InputTracker × List IVec2)
    (h : t.onMotionEvent e aip = some r) :
    r.1.clickPosition = t.clickPosition ∧
    r.1.keydownPosition = t.keydownPosition ∧
    r.1.anyKeyPressed = t.anyKeyPressed ∧
    r.1._deferredTurboMode = t._deferredTurboMode ∧
    r.1.dragThreshold = t.dragThreshold ∧
    r.1.enableMarkingMode = t.enableMarkingMode ∧
    r.1.enableTurboMode = t.enableTurboMode := by
  by_cases hig : t.ignoreMotionEvents = 0
  · cases hp : e.eventPos with
    | none =>
      unfold InputTracker.onMotionEvent at h
      rw [hp] at h
      simp [hig] at h
    | some pos =>
      rw [onMotionEvent_eq_motionResult t e aip pos hig hp] at h
      simp only [Option.some.injEq] at h
      subst h
      exact ⟨rfl, rfl, rfl, rfl, rfl, rfl, rfl⟩
  · unfold InputTracker.onMotionEvent at h
    rw [if_pos (Nat.pos_of_ne_zero hig)] at h
    simp only [Option.some.injEq] at h
    subst h
    exact ⟨rfl, rfl, rfl, rfl, rfl, rfl, rfl⟩

theorem onMotionEvent_not_turbo (t : InputTracker) (e : PointerEvent)
    (aip : IVec2) (r : InputTracker × List IVec2)
    (henable : t.enableTurboMode = false)
    (hstate : t._state ≠ InputState.eTurboMode)
    (h : t.onMotionEvent e aip = some r) :
    r.1._state ≠ InputState.eTurboMode := by
  by_cases hig : t.ignoreMotionEvents = 0
  · cases hp : e.eventPos with
    | none =>
      unfold InputTracker.onMotionEvent at h
      rw [hp] at h
      simp [hig] at h
    | some pos =>
      rw [onMotionEvent_eq_motionResult t e aip pos hig hp] at h
      simp only [Option.some.injEq] at h
      subst h
      rw [motionResult_state]
      simp only [henable, Bool.false_and]
      split_ifs <;> simp_all
  · unfold InputTracker.onMotionEvent at h
    rw [if_pos (Nat.pos_of_ne_zero hig)] at h
    simp only [Option.some.injEq] at h
    subst h
    exact hstate

theorem onKeyDownEvent_projections (t : InputTracker) :
    t.onKeyDownEvent._state = t._state ∧
    t.onKeyDownEvent.clickPosition = t.clickPosition ∧
    t.onKeyDownEvent.enableTurboMode = t.enableTurboMode := by
  unfold InputTracker.onKeyDownEvent
  split <;> exact ⟨rfl, rfl, rfl⟩

theorem onKeyUpEvent_projections (t : InputTracker) (m : Modifiers) :
    (t.onKeyUpEvent m).clickPosition = t.clickPosition ∧
    (t.onKeyUpEvent m).enableTurboMode = t.enableTurboMode := by
  simp only [InputTracker.onKeyUpEvent]
  split_ifs <;> simp

theorem onKeyUpEvent_not_turbo (t : InputTracker) (m : Modifiers)
    (hstate : t._state ≠ InputState.eTurboMode) :
    (t.onKeyUpEvent m)._state ≠ InputState.eTurboMode := by
  simp only [InputTracker.onKeyUpEvent]
  split_ifs <;> simp_all

theorem stepOp_turboFree (t : InputTracker) (op : Op) (t1 : InputTracker)
    (henable : t.enableTurboMode = false)
    (hstate : t._state ≠ InputState.eTurboMode)
    (h : stepOp t op = some t1) :
    t1.enableTurboMode = false ∧ t1._state ≠ InputState.eTurboMode := by
  cases op with
  | pointerDown e aip =>
    simp only [stepOp] at h
    obtain ⟨r, hr, hr1⟩ := Option.map_eq_some'.mp h
    unfold InputTracker.onPointerDownEvent at hr
    cases hp : e.eventPos with
    | none =>
      rw [hp] at hr
      cases hr
    | some cp =>
      rw [hp] at hr
      have hpr := onMotionEvent_preserves _ e aip r hr
      have hnt := onMotionEvent_not_turbo _ e aip r (by exact henable)
        (by simp) hr
      subst hr1
      exact ⟨hpr.2.2.2.2.2.2.trans henable, hnt⟩
  | pointerUp =>
    simp only [stepOp, Option.some.injEq] at h
    subst h
    exact ⟨henable, by simp [InputTracker.onPointerUpEvent]⟩
  | motion e aip =>
    simp only [stepOp] at h
    obtain ⟨r, hr, hr1⟩ := Option.map_eq_some'.mp h
    have hpr := onMotionEvent_preserves t e aip r hr
    have hnt := onMotionEvent_not_turbo t e aip r henable hstate hr
    subst hr1
    exact ⟨hpr.2.2.2.2.2.2.trans henable, hnt⟩
  | keyDown =>
    simp only [stepOp, Option.some.injEq] at h
    subst h
    refine ⟨(onKeyDownEvent_projections t).2.2.trans henable, ?_⟩
    rw [(onKeyDownEvent_projections t).1]
    exact hstate
  | keyUp m =>
    simp only [stepOp, Option.some.injEq] at h
    subst h
    exact ⟨(onKeyUpEvent_projections t m).2.trans henable,
      onKeyUpEvent_not_turbo t m hstate⟩
  | ignoreReset =>
    simp only [stepOp, Option.some.injEq] at h
    subst h
    exact ⟨henable, hstate⟩

theorem runOps_turboFree (ops : List Op) :
    ∀ t t' : InputTracker, t.enableTurboMode = false →
      t._state ≠ InputState.eTurboMode → runOps t ops = some t' →
      t'._state ≠ InputState.eTurboMode := by
  induction ops with
  | nil =>
    intro t t' _ hs h
    simp only [runOps, Option.some.injEq] at h
    subst h
    exact hs
  | cons op rest ih =>
    intro t t' he hs h
    simp only [runOps] at h
    obtain ⟨t1, h1, h2⟩ := Option.bind_eq_some.mp h
    obtain ⟨he1, hs1⟩ := stepOp_turboFree t op t1 he hs h1
    exact ih t1 t' he1 hs1 h2

/-- C6: with turbo mode disabled for the whole session, no sequence of
operations starting from the initial state ever reaches `eTurboMode`. -/
theorem turbo_disabled_never_turbo (ops : List Op) (t' : InputTracker)
    (h : runOps { initialTracker with enableTurboMode := false } ops =
      some t') :
    t'._state ≠ InputState.eTurboMode :=
  runOps_turboFree ops _ t' rfl (by decide) h

/-- Witness for C6 at a concrete trace: key down, then a ctrl-flagged
motion far from the key-down position — with turbo disabled the tracker
still does not reach turbo mode. -/
theorem turbo_disabled_never_turbo_witness :
    (motionResult
      ({ initialTracker with enableTurboMode := false }.onKeyDownEvent)
      (PointerEvent.mouse 100 0 ⟨true, false, false, false⟩ 1)
      ⟨100, 0⟩ ⟨0, 0⟩)._state ≠ InputState.eTurboMode := by
  refine turbo_disabled_never_turbo
    [Op.keyDown,
     Op.motion (PointerEvent.mouse 100 0 ⟨true, false, false, false⟩ 1)
       ⟨0, 0⟩] _ ?_
  have hm := onMotionEvent_eq_motionResult
    ({ initialTracker with enableTurboMode := false }.onKeyDownEvent)
    (PointerEvent.mouse 100 0 ⟨true, false, false, false⟩ 1) ⟨0, 0⟩
    ⟨100, 0⟩ rfl rfl
  simp only [runOps, stepOp, Option.some_bind, hm, Option.map_some',
    Option.bind_some]

theorem runOps_clickNull (ops : List Op) :
    ∀ (t t' : InputTracker) (b : Bool), runOps t ops = some t' →
      ((t.clickPosition = none) ↔ b = true) →
      ((t'.clickPosition = none) ↔ clickNull b ops = true) := by
  induction ops with
  | nil =>
    intro t t' b h hb
    simp only [runOps, Option.some.injEq] at h
    subst h
    simpa [clickNull] using hb
  | cons op rest ih =>
    intro t t' b h hb
    simp only [runOps] at h
    obtain ⟨t1, h1, h2⟩ := Option.bind_eq_some.mp h
    have hfold : clickNull b (op :: rest) = clickNull (clickNullStep b op) rest := rfl
    rw [hfold]
    refine ih t1 t' (clickNullStep b op) h2 ?_
    cases op with
    | pointerDown e aip =>
      simp only [stepOp] at h1
      obtain ⟨r, hr, hr1⟩ := Option.map_eq_some'.mp h1
      unfold InputTracker.onPointerDownEvent at hr
      cases hp : e.eventPos with
      | none =>
        rw [hp] at hr
        cases hr
      | some cp =>
        rw [hp] at hr
        have hpr := (onMotionEvent_preserves _ e aip r hr).1
        subst hr1
        rw [hpr]
        simp [clickNullStep]
    | pointerUp =>
      simp only [stepOp, Option.some.injEq] at h1
      subst h1
      simp [InputTracker.onPointerUpEvent, clickNullStep]
    | motion e aip =>
      simp only [stepOp] at h1
      obtain ⟨r, hr, hr1⟩ := Option.map_eq_some'.mp h1
      have hpr := (onMotionEvent_preserves t e aip r hr).1
      subst hr1
      rw [hpr]
      simpa [clickNullStep] using hb
    | keyDown =>
      simp only [stepOp, Option.some.injEq] at h1
      subst h1
      rw [(onKeyDownEvent_projections t).2.1]
      simpa [clickNullStep] using hb
    | keyUp m =>
      simp only [stepOp, Option.some.injEq] at h1
      subst h1
      rw [(onKeyUpEvent_projections t m).1]
      simpa [clickNullStep] using hb
    | ignoreReset =>
      simp only [stepOp, Option.some.injEq] at h1
      subst h1
      simpa [clickNullStep, InputTracker.ignoreNextMotionEvents] using hb

/-- C3 (amended): after any successful trace from the initial state,
`clickPosition` is null exactly when a release has occurred with no later
press; it is set on every press and cleared on every release, but in the
initial state it holds the non-null value (0, 0) although no press is
active. -/
theorem clickPosition_null_iff (ops : List Op) (t' : InputTracker)
    (h : runOps initialTracker ops = some t') :
    (t'.clickPosition = none ↔ clickNull false ops = true) :=
  runOps_clickNull ops initialTracker t' false h (by simp [initialTracker])

/-- Witness for C3 at a concrete trace: after a single release,
`clickPosition` is null and `clickNull` agrees. -/
theorem clickPosition_null_iff_witness :
    (initialTracker.onPointerUpEvent.clickPosition = none ↔
      clickNull false [Op.pointerUp] = true) :=
  clickPosition_null_iff [Op.pointerUp] initialTracker.onPointerUpEvent rfl

/-- Counterexample to C3 as stated: in the initial state (the empty
trace), no press is active yet `clickPosition` is the non-null origin. -/
theorem clickPosition_initial_nonNull :
    runOps initialTracker [] = some initialTracker ∧
    initialTracker.clickPosition ≠ none ∧
    pressActive [] = false :=
  ⟨rfl, by decide, rfl⟩

/-- C8: after `ignoreNextMotionEvents`, the next two motion events only
decrement the ignore counter — every other field is unchanged and nothing
is emitted — and a third motion event is processed normally: it moves
`absolutePosition` to the event position and emits it. -/
theorem ignoreNextMotion_swallows_two (t : InputTracker)
    (e1 e2 e3 : PointerEvent) (a1 a2 a3 p3 : IVec2)
    (h3 : e3.eventPos = some p3) :
    t.ignoreNextMotionEvents.onMotionEvent e1 a1 =
      some ({ t.ignoreNextMotionEvents with ignoreMotionEvents := 1 }, []) ∧
    ({ t.ignoreNextMotionEvents with
        ignoreMotionEvents := 1 } : InputTracker).onMotionEvent e2 a2 =
      some ({ t.ignoreNextMotionEvents with ignoreMotionEvents := 0 }, []) ∧
    (({ t.ignoreNextMotionEvents with
        ignoreMotionEvents := 0 } : InputTracker).onMotionEvent e3 a3).map
        (fun r => (r.1._absolutePosition, r.2)) = some (p3, [p3]) := by
  refine ⟨rfl, rfl, ?_⟩
  rw [onMotionEvent_eq_motionResult _ e3 a3 p3 rfl h3]
  rfl

/-- Witness for C8 at concrete inputs: two arbitrary events (even an
empty touch event) are swallowed; a third mouse motion to (9, 9) lands in
`absolutePosition` and is emitted. -/
theorem ignoreNextMotion_swallows_two_witness :
    initialTracker.ignoreNextMotionEvents.onMotionEvent
        (PointerEvent.touch [] noMods) ⟨1, 1⟩ =
      some ({ initialTracker.ignoreNextMotionEvents with
        ignoreMotionEvents := 1 }, []) ∧
    ({ initialTracker.ignoreNextMotionEvents with
        ignoreMotionEvents := 1 } : InputTracker).onMotionEvent
        (PointerEvent.mouse 2 2 noMods 0) ⟨1, 1⟩ =
      some ({ initialTracker.ignoreNextMotionEvents with
        ignoreMotionEvents := 0 }, []) ∧
    (({ initialTracker.ignoreNextMotionEvents with
        ignoreMotionEvents := 0 } : InputTracker).onMotionEvent
        (PointerEvent.mouse 9 9 noMods 0) ⟨1, 1⟩).map
        (fun r => (r.1._absolutePosition, r.2)) = some (⟨9, 9⟩, [⟨9, 9⟩]) :=
  ignoreNextMotion_swallows_two initialTracker (PointerEvent.touch [] noMods)
    (PointerEvent.mouse 2 2 noMods 0) (PointerEvent.mouse 9 9 noMods 0)
    ⟨1, 1⟩ ⟨1, 1⟩ ⟨1, 1⟩ ⟨9, 9⟩ rfl

theorem motion_in_zone_keeps_clicked (t : InputTracker) (e : PointerEvent)
    (aip p q : IVec2) (r : InputTracker × List IVec2)
    (hig : t.ignoreMotionEvents = 0)
    (hst : t._state = InputState.eClicked)
    (hclick : t.clickPosition = some p)
    (hkey : t.anyKeyPressed = false)
    (hmods : anyModifier e.modifiers = false)
    (hq : e.eventPos = some q)
    (hnear : getDistance q p < (t.dragThreshold : ℝ))
    (h : t.onMotionEvent e aip = some r) :
    r.1._state = InputState.eClicked := by
  rw [onMotionEvent_eq_motionResult t e aip q hig hq] at h
  simp only [Option.some.injEq] at h
  subst h
  rw [motionResult_state_noTurbo t e q aip (by simp [hkey, hmods])]
  simp [hst, hclick, hnear]

theorem runMoves_clicked (p : IVec2) (th : ℤ)
    (moves : List (PointerEvent × IVec2)) :
    ∀ t : InputTracker, t.ignoreMotionEvents = 0 →
      t._state = InputState.eClicked → t.clickPosition = some p →
      t.anyKeyPressed = false → t.dragThreshold = th →
      (∀ pr ∈ moves, anyModifier pr.1.modifiers = false ∧
        ∃ q, pr.1.eventPos = some q ∧ getDistance q p < (th : ℝ)) →
      ∃ t', runOps t (moves.map fun pr => Op.motion pr.1 pr.2) = some t' ∧
        t'._state = InputState.eClicked ∧ t'.clickPosition = some p ∧
        t'.anyKeyPressed = false ∧ t'.ignoreMotionEvents = 0 ∧
        t'.dragThreshold = th := by
  induction moves with
  | nil =>
    intro t hig hst hclick hkey hth _
    exact ⟨t, rfl, hst, hclick, hkey, hig, hth⟩
  | cons pr rest ih =>
    intro t hig hst hclick hkey hth hmoves
    obtain ⟨hm, q, hq, hnear⟩ := hmoves pr (List.mem_cons_self pr rest)
    have hstep := onMotionEvent_eq_motionResult t pr.1 pr.2 q hig hq
    have hclicked := motion_in_zone_keeps_clicked t pr.1 pr.2 p q
      (motionResult t pr.1 q pr.2, [q]) hig hst hclick hkey hm hq
      (by rw [hth]; exact hnear) hstep
    obtain ⟨t', hrun, hrest⟩ := ih (motionResult t pr.1 q pr.2)
      (by rw [motionResult_flags t pr.1 q pr.2 |>.2.1]; exact hig)
      hclicked
      (by rw [motionResult_clickPosition]; exact hclick)
      (by rw [motionResult_anyKeyPressed]; exact hkey)
      (by rw [motionResult_flags t pr.1 q pr.2 |>.2.2.1]; exact hth)
      (fun pr2 hpr2 => hmoves pr2 (List.mem_cons_of_mem pr hpr2))
    refine ⟨t', ?_, hrest⟩
    simp only [List.map_cons, runOps, stepOp, hstep, Option.map_some',
      Option.some_bind]
    exact hrun

/-- C4 (amended): starting from a press at `p` (no key held, no modifier
flags), as long as every motion stays strictly within `dragThreshold` of
`p` the state remains `eClicked`, and the release then yields `eReleased`
with `clickPosition` null; moreover, from any such state a further
modifier-free motion keeps `eClicked` exactly when its position is
strictly within `dragThreshold` of `p` — promotion out of `eClicked`
happens exactly at distance ≥ `dragThreshold`, threshold included. -/
theorem click_within_threshold_stays_clicked (t : InputTracker)
    (eDown : PointerEvent) (aipD p : IVec2)
    (moves : List (PointerEvent × IVec2)) (tD : InputTracker)
    (emsD : List IVec2)
    (hig : t.ignoreMotionEvents = 0)
    (hth : 0 < t.dragThreshold)
    (hkey : t.anyKeyPressed = false)
    (hDpos : eDown.eventPos = some p)
    (hDmods : anyModifier eDown.modifiers = false)
    (hdown : t.onPointerDownEvent eDown aipD = some (tD, emsD))
    (hmoves : ∀ pr ∈ moves, anyModifier pr.1.modifiers = false ∧
      ∃ q, pr.1.eventPos = some q ∧
        getDistance q p < (t.dragThreshold : ℝ)) :
    ∃ t', runOps tD (moves.map fun pr => Op.motion pr.1 pr.2) = some t' ∧
      t'._state = InputState.eClicked ∧
      t'.onPointerUpEvent._state = InputState.eReleased ∧
      t'.onPointerUpEvent.clickPosition = none ∧
      (∀ (e : PointerEvent) (aip q : IVec2) (r : InputTracker × List IVec2),
        anyModifier e.modifiers = false → e.eventPos = some q →
        t'.onMotionEvent e aip = some r →
        (r.1._state = InputState.eClicked ↔
          getDistance q p < (t.dragThreshold : ℝ))) := by
  rw [onPointerDownEvent_eq_motionResult t eDown aipD p hig hDpos] at hdown
  simp only [Option.some.injEq, Prod.mk.injEq] at hdown
  obtain ⟨h1, -⟩ := hdown
  have hdd : getDistance p p < (t.dragThreshold : ℝ) :=
    getDistance_self_lt hth p
  have hDstate : tD._state = InputState.eClicked := by
    rw [← h1, motionResult_state_noTurbo
      { t with clickPosition := some p, _state := InputState.eClicked }
      eDown p aipD (by simp [hkey, hDmods])]
    simp [hdd]
  have hDclick : tD.clickPosition = some p := by
    rw [← h1]
    rfl
  have hDig : tD.ignoreMotionEvents = 0 := by
    rw [← h1]
    exact hig
  have hDkey : tD.anyKeyPressed = false := by
    rw [← h1]
    exact hkey
  have hDth : tD.dragThreshold = t.dragThreshold := by
    rw [← h1]
    rfl
  obtain ⟨t', hrun, hst, hclick, hkey', hig', hth'⟩ :=
    runMoves_clicked p t.dragThreshold moves tD hDig hDstate hDclick hDkey
      hDth hmoves
  refine ⟨t', hrun, hst, rfl, rfl, ?_⟩
  intro e aip q r hm hq hr
  rw [onMotionEvent_eq_motionResult t' e aip q hig' hq] at hr
  simp only [Option.some.injEq] at hr
  subst hr
  rw [motionResult_state_noTurbo t' e q aip (by simp [hkey', hm])]
  rw [hclick, hth']
  by_cases hz : getDistance q p < (t.dragThreshold : ℝ)
  · simp [hst, hz]
  · simp only [hst, hz, decide_eq_true_eq]
    constructor
    · intro hfalse
      by_contra
      revert hfalse
      cases hMk : t'.enableMarkingMode <;>
        cases hBtn : e.isMouseNoButtons <;>
          simp_all
    · intro hzz
      exact hzz.elim

/-- Witness for C4 at concrete inputs: press at (100, 100), motion to
(105, 103) (distance below threshold 15) — the state is still
`eClicked`. -/
theorem click_within_threshold_stays_clicked_witness :
    ((runOps
        (motionResult
          { initialTracker with
              clickPosition := some ⟨100, 100⟩,
              _state := InputState.eClicked }
          (PointerEvent.mouse 100 100 noMods 1) ⟨100, 100⟩ ⟨0, 0⟩)
        [Op.motion (PointerEvent.mouse 105 103 noMods 1) ⟨0, 0⟩]).map
      (fun u => u._state)) = some InputState.eClicked := by
  have h := click_within_threshold_stays_clicked initialTracker
    (PointerEvent.mouse 100 100 noMods 1) ⟨0, 0⟩ ⟨100, 100⟩
    [(PointerEvent.mouse 105 103 noMods 1, ⟨0, 0⟩)]
    (motionResult
      { initialTracker with
          clickPosition := some ⟨100, 100⟩, _state := InputState.eClicked }
      (PointerEvent.mouse 100 100 noMods 1) ⟨100, 100⟩ ⟨0, 0⟩)
    [⟨100, 100⟩] rfl (by decide) rfl rfl
    (by simp [PointerEvent.modifiers, anyModifier, noMods])
    (onPointerDownEvent_eq_motionResult initialTracker
      (PointerEvent.mouse 100 100 noMods 1) ⟨0, 0⟩ ⟨100, 100⟩ rfl rfl)
    (by
      intro pr hpr
      simp only [List.mem_singleton] at hpr
      subst hpr
      refine ⟨by simp [PointerEvent.modifiers, anyModifier, noMods],
        ⟨105, 103⟩, rfl, ?_⟩
      rw [getDistance_lt_iff]
      decide)
  obtain ⟨t', hrun, hst, -⟩ := h
  simp only [List.map_cons, List.map_nil] at hrun
  rw [hrun]
  simp [hst]

/-- Counterexample to C4 as stated: a motion at distance exactly
`dragThreshold` (15) from the press point is not farther than the
threshold, yet it promotes the state out of `eClicked` to
`eMarkingMode`. -/
theorem click_boundary_promotes :
    ¬((initialTracker.dragThreshold : ℝ) < getDistance ⟨15, 0⟩ ⟨0, 0⟩) ∧
    ((runOps initialTracker
        [Op.pointerDown (PointerEvent.mouse 0 0 noMods 1) ⟨0, 0⟩,
         Op.motion (PointerEvent.mouse 15 0 noMods 1) ⟨0, 0⟩]).map
      (fun t => t._state)) = some InputState.eMarkingMode ∧
    InputState.eMarkingMode ≠ InputState.eClicked := by
  refine ⟨?_, by decide, by decide⟩
  rw [lt_getDistance_iff]
  decide

theorem getLength_eq_abs (v : IVec2) :
    getLength v = Complex.abs ⟨(v.x : ℝ), (v.y : ℝ)⟩ := by
  rw [Complex.abs_apply, Complex.normSq_mk]
  unfold getLength
  congr 1
  push_cast [sqLength]
  ring

/-- The polar form computed by `getLength` and `getAngle` converts back
to the original Cartesian vector, exactly. -/
theorem polar_roundtrip (v : IVec2) :
    polarToCartesian (getLength v) (getAngle v) = ((v.x : ℝ), (v.y : ℝ)) := by
  set z : ℂ := ⟨(v.x : ℝ), (v.y : ℝ)⟩ with hz
  have habs : getLength v = Complex.abs z := getLength_eq_abs v
  unfold polarToCartesian getAngle
  set deg := Complex.arg z * 180 / Real.pi + 90 with hdeg
  set k : ℤ := ⌊deg / 360⌋ with hk
  have hrad : (deg - 360 * (k : ℝ)) * Real.pi / 180 =
      Complex.arg z + Real.pi / 2 + ((-k : ℤ) : ℝ) * (2 * Real.pi) := by
    rw [hdeg]
    push_cast
    field_simp
    ring
  have hsin : Real.sin ((deg - 360 * (k : ℝ)) * Real.pi / 180) =
      Real.cos (Complex.arg z) := by
    rw [hrad, Real.sin_add_int_mul_two_pi, Real.sin_add_pi_div_two]
  have hcos : Real.cos ((deg - 360 * (k : ℝ)) * Real.pi / 180) =
      -Real.sin (Complex.arg z) := by
    rw [hrad, Real.cos_add_int_mul_two_pi, Real.cos_add_pi_div_two]
  simp only [Prod.mk.injEq]
  constructor
  · rw [hsin, habs, Complex.abs_mul_cos_arg]
  · rw [hcos, habs, mul_neg, neg_neg, Complex.abs_mul_sin_arg]

/-- C7: immediately after any call to `update`, `relativePosition` equals
`absolutePosition − activeItemPosition` (and is zero when the item
position is omitted), `distance` is the Euclidean length of
`relativePosition`, and converting `(distance, angle)` back from polar to
Cartesian recovers `relativePosition` exactly. -/
theorem update_geometry (t : InputTracker) (pos : IVec2)
    (aip : Option IVec2) :
    (t.update pos aip)._relativePosition =
      subtract (t.update pos aip)._absolutePosition (aip.getD pos) ∧
    (t.update pos none)._relativePosition = (⟨0, 0⟩ : IVec2) ∧
    (t.update pos aip)._distance =
      getLength ((t.update pos aip)._relativePosition) ∧
    polarToCartesian (t.update pos aip)._distance
        (t.update pos aip)._angle =
      (((t.update pos aip)._relativePosition.x : ℝ),
       ((t.update pos aip)._relativePosition.y : ℝ)) := by
  refine ⟨rfl, ?_, rfl, ?_⟩
  · simp [InputTracker.update, subtract]
  · exact polar_roundtrip (subtract pos (aip.getD pos))

end Kando
